import Mathlib

/-!
Verification of the JARVIS agent-coordination core: envelope codec,
agent runtime message dispatch, orchestrator registry, health monitor
and workflow dispatcher, modelled shallowly from the repository sources.
-/

namespace Jarvis

/-- JSON-style structured values carried in message payloads.
Numbers are modelled as integers (the wire payloads of this system are
strings, integers and nested objects). -/
inductive Json where
  | null : Json
  | bool (b : Bool) : Json
  | num (n : Int) : Json
  | str (s : String) : Json
  | arr (xs : List Json) : Json
  | obj (kvs : List (String × Json)) : Json
  deriving Repr

mutual

/-- Node count of a JSON value, the measure used for parser fuel. -/
def jsize : Json → Nat
  | .null => 1
  | .bool _ => 1
  | .num _ => 1
  | .str _ => 1
  | .arr xs => 1 + jsizeItems xs
  | .obj kvs => 1 + jsizeMembers kvs

def jsizeItems : List Json → Nat
  | [] => 0
  | x :: t => 1 + jsize x + jsizeItems t

def jsizeMembers : List (String × Json) → Nat
  | [] => 0
  | (_, v) :: t => 1 + jsize v + jsizeMembers t

end

/-- Whether a list of object keys is duplicate-free. -/
def nodupKeys : List String → Bool
  | [] => true
  | k :: t => !t.contains k && nodupKeys t

mutual

/-- Whether every object in a JSON value has pairwise distinct keys.
Encoding a Python dict can only produce such values. -/
def validKeys : Json → Bool
  | .null => true
  | .bool _ => true
  | .num _ => true
  | .str _ => true
  | .arr xs => validKeysItems xs
  | .obj kvs => nodupKeys (kvs.map Prod.fst) && validKeysMembers kvs

/-- Key validity over the elements of an array. -/
def validKeysItems : List Json → Bool
  | [] => true
  | x :: t => validKeys x && validKeysItems t

/-- Key validity over the values of an object. -/
def validKeysMembers : List (String × Json) → Bool
  | [] => true
  | (_, v) :: t => validKeys v && validKeysMembers t

end

/-- The decimal digit character for `d < 10`. -/
def digitChar (d : Nat) : Char := Char.ofNat (48 + d)

/-- The lower-case hexadecimal digit character for `d < 16`. -/
def hexChar (d : Nat) : Char :=
  if d < 10 then Char.ofNat (48 + d) else Char.ofNat (87 + d)

/-- Fuelled worker for `natChars`; any fuel above the operand suffices. -/
def natCharsAux : Nat → Nat → List Char
  | 0, _ => []
  | fuel + 1, n =>
    if n < 10 then [digitChar n]
    else natCharsAux fuel (n / 10) ++ [digitChar (n % 10)]

/-- Decimal digit characters of a natural number, most significant first. -/
def natChars (n : Nat) : List Char := natCharsAux (n + 1) n

/-- Decimal characters of an integer, with a leading minus sign when negative. -/
def intChars (n : Int) : List Char :=
  if n < 0 then '-' :: natChars (-n).toNat else natChars n.toNat

/-- JSON string escaping of one character: quote and backslash get a
backslash escape, control characters a four-digit hexadecimal escape,
everything else stands for itself. -/
def escChar (c : Char) : List Char :=
  if c = '\"' then ['\\', '\"']
  else if c = '\\' then ['\\', '\\']
  else if c.toNat < 32 then
    ['\\', 'u', '0', '0', hexChar (c.toNat / 16), hexChar (c.toNat % 16)]
  else [c]

/-- JSON string escaping of a character sequence. -/
def escChars : List Char → List Char
  | [] => []
  | c :: t => escChar c ++ escChars t

/-- A JSON string literal: escaped content between double quotes. -/
def encStr (s : String) : List Char := '\"' :: (escChars s.data ++ ['\"'])

mutual

/-- Serialize a JSON value to characters (the envelope codec's `encode`,
compact separators). -/
def encodeJson : Json → List Char
  | .num n => intChars n
  | .str s => encStr s
  | .arr xs => '[' :: (encodeItems xs ++ [']'])
  | .obj kvs => '{' :: (encodeMembers kvs ++ ['}'])
  | .null => 'n' :: "ull".toList
  | .bool true => 't' :: "rue".toList
  | .bool false => 'f' :: "alse".toList

/-- Serialize the comma-separated elements of a JSON array. -/
def encodeItems : List Json → List Char
  | [] => []
  | [x] => encodeJson x
  | x :: y :: t => encodeJson x ++ ',' :: encodeItems (y :: t)

/-- Serialize the comma-separated members of a JSON object. -/
def encodeMembers : List (String × Json) → List Char
  | [] => []
  | [(k, v)] => encStr k ++ ':' :: encodeJson v
  | (k, v) :: m :: t => encStr k ++ ':' :: encodeJson v ++ ',' :: encodeMembers (m :: t)

end

/-- Whether a character is a decimal digit. -/
def isDigitCh (c : Char) : Bool := 48 ≤ c.toNat && c.toNat ≤ 57

/-- Numeric value of a decimal digit character. -/
def digitVal (c : Char) : Nat := c.toNat - 48

/-- The natural number denoted by a run of decimal digit characters. -/
def charsToNat (cs : List Char) : Nat := cs.foldl (fun a c => a * 10 + digitVal c) 0

/-- Numeric value of a hexadecimal digit character, upper or lower case. -/
def hexVal (c : Char) : Option Nat :=
  if 48 ≤ c.toNat ∧ c.toNat ≤ 57 then some (c.toNat - 48)
  else if 97 ≤ c.toNat ∧ c.toNat ≤ 102 then some (c.toNat - 87)
  else if 65 ≤ c.toNat ∧ c.toNat ≤ 70 then some (c.toNat - 55)
  else none

/-- Whether a character sequence opens with a decimal digit. -/
def digitStart : List Char → Bool
  | [] => false
  | c :: _ => isDigitCh c

mutual

/-- Parse the body of a JSON string literal after its opening quote,
returning the unescaped content and the characters after the closing
quote. -/
def parseStrBody : List Char → Option (List Char × List Char)
  | [] => none
  | c :: rest =>
    if c = '\"' then some ([], rest)
    else if c = '\\' then parseEsc rest
    else (parseStrBody rest).map (fun p => (c :: p.1, p.2))

/-- Parse one escape sequence after a backslash inside a string literal. -/
def parseEsc : List Char → Option (List Char × List Char)
  | '\"' :: rest => (parseStrBody rest).map (fun p => ('\"' :: p.1, p.2))
  | '\\' :: rest => (parseStrBody rest).map (fun p => ('\\' :: p.1, p.2))
  | 'u' :: a :: b :: c :: d :: rest =>
    match hexVal a, hexVal b, hexVal c, hexVal d with
    | some ha, some hb, some hc, some hd =>
      (parseStrBody rest).map
        (fun p => (Char.ofNat (((ha * 16 + hb) * 16 + hc) * 16 + hd) :: p.1, p.2))
    | _, _, _, _ => none
  | _ => none

end

/-- Parse a JSON number (an optional minus sign and a digit run). -/
def parseNum (cs : List Char) : Option (Json × List Char) :=
  match cs with
  | '-' :: rest =>
    match rest.takeWhile isDigitCh with
    | [] => none
    | ds => some (.num (-(charsToNat ds : Int)), rest.dropWhile isDigitCh)
  | _ =>
    match cs.takeWhile isDigitCh with
    | [] => none
    | ds => some (.num (charsToNat ds : Int), cs.dropWhile isDigitCh)

mutual

/-- Fuelled parser for one JSON value; returns the value and the
remaining characters. -/
def parseVal : Nat → List Char → Option (Json × List Char)
  | 0, _ => none
  | fuel + 1, cs =>
    match cs with
    | [] => none
    | c :: rest =>
      if c = 'n' then
        match rest with
        | 'u' :: 'l' :: 'l' :: r => some (.null, r)
        | _ => none
      else if c = 't' then
        match rest with
        | 'r' :: 'u' :: 'e' :: r => some (.bool true, r)
        | _ => none
      else if c = 'f' then
        match rest with
        | 'a' :: 'l' :: 's' :: 'e' :: r => some (.bool false, r)
        | _ => none
      else if c = '\"' then
        (parseStrBody rest).map (fun p => (.str (String.mk p.1), p.2))
      else if c = '[' then
        match rest with
        | ']' :: r => some (.arr [], r)
        | _ => (parseItems fuel rest).map (fun p => (.arr p.1, p.2))
      else if c = '{' then
        match rest with
        | '}' :: r => some (.obj [], r)
        | _ => (parseMembers fuel rest).map (fun p => (.obj p.1, p.2))
      else if c = '-' || isDigitCh c then parseNum cs
      else none

/-- Fuelled parser for the elements of a nonempty JSON array and its
closing bracket. -/
def parseItems : Nat → List Char → Option (List Json × List Char)
  | 0, _ => none
  | fuel + 1, cs =>
    match parseVal fuel cs with
    | some (v, ']' :: rest) => some ([v], rest)
    | some (v, ',' :: rest) => (parseItems fuel rest).map (fun p => (v :: p.1, p.2))
    | _ => none

/-- Fuelled parser for the members of a nonempty JSON object and its
closing brace. -/
def parseMembers : Nat → List Char → Option (List (String × Json) × List Char)
  | 0, _ => none
  | fuel + 1, cs =>
    match cs with
    | '\"' :: rest =>
      match parseStrBody rest with
      | some (kcs, ':' :: r2) =>
        match parseVal fuel r2 with
        | some (v, '}' :: r3) => some ([(String.mk kcs, v)], r3)
        | some (v, ',' :: r3) =>
          (parseMembers fuel r3).map (fun p => ((String.mk kcs, v) :: p.1, p.2))
        | _ => none
      | _ => none
    | _ => none

end

/-- Decode failure of the envelope codec. -/
inductive DecodeError where
  | malformed : DecodeError
  deriving Repr, DecidableEq

/-- Modelled from the spec: the Envelope Codec's `decode(bytes) ->
Result<Envelope, DecodeError>` (the repository delegates serialization to
a JSON library that is not part of its sources; the codec here follows
the spec's JSON wire format). Malformed input yields `DecodeError`,
never an exception. -/
def decode (input : List Char) : Except DecodeError Json :=
  match parseVal (input.length + 1) input with
  | some (v, []) => .ok v
  | _ => .error .malformed

/-- Modelled from the spec: the Envelope Codec's `encode(envelope) ->
bytes`, the serialization direction of `decode`. -/
def encode (e : Json) : List Char := encodeJson e

/-- Lookup of `d.get(key)` on a decoded JSON object: the value at the first matching
key when the value is an object, nothing otherwise. -/
def lookupKey : List (String × Json) → String → Option Json
  | [], _ => none
  | (k, v) :: t, key => if k = key then some v else lookupKey t key

/-- Python `m.get(key)` for a decoded JSON value. -/
def jGet : Json → String → Option Json
  | .obj kvs, key => lookupKey kvs key
  | _, _ => none

/-- Python `m.get(key, d)` for a decoded JSON value. -/
def jGetD (m : Json) (key : String) (d : Json) : Json := (jGet m key).getD d

/-- Python `==` between a decoded JSON value and a string literal:
true exactly when the value is that string. -/
def isStrVal : Json → String → Bool
  | .str s, t => s = t
  | _, _ => false

/-- The broadcast envelope of `BaseAgent.publish_message`:
`event_type`, `agent_source`, ISO timestamp and payload. -/
structure BroadcastEnvelope where
  eventType : String
  agentSource : String
  timestamp : String
  data : Json

/-- Wire form of a broadcast envelope, as `publish_message` builds it. -/
def broadcastJson (e : BroadcastEnvelope) : Json :=
  .obj [("event_type", .str e.eventType), ("agent_source", .str e.agentSource),
        ("timestamp", .str e.timestamp), ("data", e.data)]

/-- Decode a broadcast envelope: parse the bytes and read the stamped
fields the way consumers do (`message_data.get(...)`). -/
def decodeEnvelope (input : List Char) : Except DecodeError BroadcastEnvelope :=
  match decode input with
  | .error e => .error e
  | .ok m =>
    match jGet m "event_type", jGet m "agent_source", jGet m "timestamp" with
    | some (.str et), some (.str src), some (.str ts) =>
      .ok ⟨et, src, ts, jGetD m "data" .null⟩
    | _, _, _ => .error .malformed

/-- Outcome of `BaseAgent._handle_message` for one delivered message. -/
inductive HandlerOutcome where
  | processed
  | decodeFailure
  | handlerError
  deriving DecidableEq, Repr

/-- Model of `BaseAgent._handle_message`: decode the body inside the
acknowledgement scope; a decode failure is logged and dropped, an
exception from `process_message` is logged; the message is acknowledged
in every case (the `Bool` of the result). `proc` is the concrete agent's
`process_message`. -/
def handleRawMessage {α : Type} (proc : Json → Except String α) (raw : List Char) :
    HandlerOutcome × Bool :=
  match decode raw with
  | .error _ => (.decodeFailure, true)
  | .ok m =>
    match proc m with
    | .ok _ => (.processed, true)
    | .error _ => (.handlerError, true)

/-- The consumer loop: each delivered message is handled by
`BaseAgent._handle_message`; no outcome stops consumption. -/
def consumeAll {α : Type} (proc : Json → Except String α) (raws : List (List Char)) :
    List (HandlerOutcome × Bool) :=
  raws.map (handleRawMessage proc)

/-- The event handlers `PhotoAgent.process_message` dispatches to, plus
the default logging branch for every other event type. -/
inductive PhotoAction where
  | photoOrganization (data : Json)
  | photoProcessing (data : Json)
  | newClient (data : Json)
  | sessionScheduled (data : Json)
  | unhandled (eventType : Json)
  deriving Repr

/-- Model of `PhotoAgent.process_message`: branches on `message.get('event_type',
'')` only; a non-object message raises (`.get` on a non-dict), which the
runtime catches. -/
def photoProcessMessage (m : Json) : Except String PhotoAction :=
  match m with
  | .obj _ =>
    let eventType := jGetD m "event_type" (.str "")
    let data := jGetD m "data" (.obj [])
    if isStrVal eventType "task.photo_organization" then .ok (.photoOrganization data)
    else if isStrVal eventType "task.photo_processing" then .ok (.photoProcessing data)
    else if isStrVal eventType "crm.new_client" then .ok (.newClient data)
    else if isStrVal eventType "calendar.session_scheduled" then .ok (.sessionScheduled data)
    else .ok (.unhandled eventType)
  | _ => .error "AttributeError"

/-- Status values of an `AgentRecord` in the orchestrator's registry. -/
inductive AgentStatus where
  | expected
  | online
  | offline
  | unresponsive
  deriving DecidableEq, Repr

/-- One agent's record in `JarvisOrchestrator.agents`. -/
structure AgentRecord where
  status : AgentStatus
  lastSeen : Option Int
  messagesReceived : Nat
  errors : Nat
  deriving DecidableEq, Repr

/-- The registry `JarvisOrchestrator.agents`, in insertion order. -/
def Registry := List (String × AgentRecord)

/-- The record every rostered identity starts with
(`_start_agent_monitoring`). -/
def initialRecord : AgentRecord :=
  { status := .expected, lastSeen := none, messagesReceived := 0, errors := 0 }

/-- The roster `JarvisOrchestrator.expected_agents`, as configured. -/
def expectedAgents : List String :=
  ["photo-agent", "marketing-agent", "social-media-agent", "crm-agent",
   "calendar-agent", "finance-agent", "task-agent"]

/-- Registry state right after `_start_agent_monitoring`. -/
def initRegistry (roster : List String) : Registry :=
  roster.map (fun n => (n, initialRecord))

/-- Lookup of one identity's record. -/
def regLookup : Registry → String → Option AgentRecord
  | [], _ => none
  | (n, r) :: t, a => if n = a then some r else regLookup t a

/-- The per-record update of `_handle_agent_message`: refresh liveness,
then change status on `agent.started` / `agent.stopped`. -/
def updateOnEvent (now : Int) (eventType : Json) (r : AgentRecord) : AgentRecord :=
  let r1 := { r with lastSeen := some now, messagesReceived := r.messagesReceived + 1 }
  if isStrVal eventType "agent.started" then { r1 with status := .online }
  else if isStrVal eventType "agent.stopped" then { r1 with status := .offline }
  else r1

/-- Model of `JarvisOrchestrator._handle_agent_message` on one decoded message:
only the record whose identity equals the message's `agent_source` is
touched; a non-object message raises on `.get` and is caught, leaving
the registry unchanged. -/
def handleAgentMessage (now : Int) (reg : Registry) (m : Json) : Registry :=
  match m with
  | .obj _ =>
    let eventType := jGetD m "event_type" (.str "")
    let agentSource := jGetD m "agent_source" (.str "")
    reg.map (fun nr => if isStrVal agentSource nr.1 then (nr.1, updateOnEvent now eventType nr.2) else nr)
  | _ => reg

/-- A broadcast the health monitor publishes through
`_publish_system_event('agent.unresponsive', ...)`. -/
structure SysEvent where
  eventType : String
  agentName : String
  silence : Int
  deriving DecidableEq, Repr

/-- The health monitor's treatment of one record
(`_check_agent_health` loop body): a never-seen record stays `expected`;
a record silent for more than 300 time units and not already
`unresponsive` becomes `unresponsive` with one alarm broadcast. -/
def checkRecord (now : Int) (n : String) (r : AgentRecord) : AgentRecord × List SysEvent :=
  match r.lastSeen with
  | none =>
    if r.status ≠ .expected then ({ r with status := .expected }, []) else (r, [])
  | some t =>
    if 300 < now - t then
      if r.status ≠ .unresponsive then
        ({ r with status := .unresponsive }, [⟨"agent.unresponsive", n, now - t⟩])
      else (r, [])
    else (r, [])

/-- Model of `JarvisOrchestrator._check_agent_health`: one sweep over the whole
registry, collecting the alarm broadcasts it publishes in order. -/
def checkAgentHealth (now : Int) : Registry → Registry × List SysEvent
  | [] => ([], [])
  | (n, r) :: rest =>
    let p := checkRecord now n r
    let q := checkAgentHealth now rest
    ((n, p.1) :: q.1, p.2 ++ q.2)

/-- A sequence of health sweeps at the given times. -/
def sweepTimes (times : List Int) (reg : Registry) : Registry :=
  times.foldl (fun r t => (checkAgentHealth t r).1) reg

/-- Whether a sweep broadcast concerns the given identity. -/
def eventFor (a : String) (e : SysEvent) : Bool :=
  e.agentName = a && e.eventType = "agent.unresponsive"

/-- The registry-mutating operations of the orchestrator's lifetime:
consuming a decoded broadcast and the periodic health sweep (stats
publishing only reads the registry). -/
inductive OrchOp where
  | consume (now : Int) (m : Json)
  | sweep (now : Int)

/-- Apply one orchestrator operation to the registry. -/
def applyOp (reg : Registry) : OrchOp → Registry
  | .consume now m => handleAgentMessage now reg m
  | .sweep now => (checkAgentHealth now reg).1

/-- The registry after any run of the orchestrator: started from the
configured roster, then any interleaving of consumed messages and
health sweeps. -/
def runOps (ops : List OrchOp) : Registry :=
  ops.foldl applyOp (initRegistry expectedAgents)

/-- A direct (point-to-point) task message as
`JarvisOrchestrator._send_task_to_agent` builds it. -/
structure DirectMsg where
  msgType : String
  fromAgent : String
  toAgent : String
  timestamp : String
  task : Json

/-- Wire form of a direct message. -/
def directMsgJson (m : DirectMsg) : Json :=
  .obj [("type", .str m.msgType), ("from", .str m.fromAgent), ("to", .str m.toAgent),
        ("timestamp", .str m.timestamp), ("task", m.task)]

/-- The orchestrator's view of its transport while dispatching: the
channel flag, which publish attempts the broker fails, the messages
delivered so far and the send errors logged by `_send_task_to_agent`. -/
structure Transport where
  channelSet : Bool
  failAt : List Nat
  attempts : Nat
  sent : List DirectMsg
  sendErrors : List String

/-- Model of `JarvisOrchestrator._send_task_to_agent`: returns silently when the
channel is unset; a publish failure is caught and logged inside the
helper and never propagates. -/
def sendTaskToAgent (t : Transport) (now : String) (agentName : String) (taskData : Json) :
    Transport :=
  if !t.channelSet then t
  else if t.failAt.contains t.attempts then
    { t with attempts := t.attempts + 1, sendErrors := t.sendErrors ++ [agentName] }
  else
    { t with attempts := t.attempts + 1,
             sent := t.sent ++ [⟨"task_request", "orchestrator", agentName, now, taskData⟩] }

/-- The result dictionary of a workflow execution. -/
structure TaskResult where
  status : String
  message : String
  deriving DecidableEq, Repr

/-- Model of `JarvisOrchestrator._execute_client_onboarding`: three ordered
direct sends (CRM registration, client folder, first consultation),
then an unconditional `initiated` result. -/
def executeClientOnboarding (t : Transport) (now : String) (taskData : Json) :
    Transport × TaskResult :=
  let clientData := jGetD taskData "client_data" (.obj [])
  let t1 := sendTaskToAgent t now "crm-agent"
    (.obj [("type", .str "register_client"), ("client_data", clientData)])
  let t2 := sendTaskToAgent t1 now "photo-agent"
    (.obj [("type", .str "create_client_folder"), ("client_name", jGetD clientData "name" (.str ""))])
  let t3 := sendTaskToAgent t2 now "calendar-agent"
    (.obj [("type", .str "schedule_consultation"), ("client_data", clientData)])
  (t3, ⟨"initiated", "Onboarding de cliente iniciado"⟩)

/-- The connection state of a running agent, as `BaseAgent.stop`
observes and mutates it: the exchange and connection handles, whether
the connection is closed, how many times it was closed, and the
broadcast publishes made so far. -/
structure AgentConn where
  exchangeSet : Bool
  connected : Bool
  isClosed : Bool
  closeCalls : Nat
  published : List String
  deriving DecidableEq, Repr

/-- Model of `BaseAgent.publish_message`, reduced to its externally observable
effect: one more broadcast of the given event type. -/
def publishMessage (s : AgentConn) (eventType : String) : AgentConn :=
  { s with published := s.published ++ [eventType] }

/-- Model of `BaseAgent.stop`: publish `agent.stopped` whenever the exchange
handle is set, then close the connection when it is open. -/
def stopAgent (s : AgentConn) : AgentConn :=
  let s1 := if s.exchangeSet then publishMessage s "agent.stopped" else s
  if s1.connected && !s1.isClosed then
    { s1 with isClosed := true, closeCalls := s1.closeCalls + 1 }
  else s1

/-! ### Registry lemmas -/

theorem regLookup_map_upd (src et : Json) (now : Int) (reg : Registry) (b : String) :
    regLookup (reg.map (fun nr =>
        if isStrVal src nr.1 then (nr.1, updateOnEvent now et nr.2) else nr)) b =
      (regLookup reg b).map
        (fun r => if isStrVal src b then updateOnEvent now et r else r) := by
  induction reg with
  | nil => rfl
  | cons hd tl ih =>
    obtain ⟨n, r⟩ := hd
    simp only [List.map_cons]
    by_cases hn : n = b
    · subst hn
      cases hs : isStrVal src n <;> simp [regLookup, hs, ih]
    · cases hs : isStrVal src n <;> simp [regLookup, hn, hs, ih]

theorem handleAgentMessage_obj (now : Int) (reg : Registry) (kvs : List (String × Json))
    (b : String) :
    regLookup (handleAgentMessage now reg (.obj kvs)) b =
      (regLookup reg b).map (fun r =>
        if isStrVal (jGetD (.obj kvs) "agent_source" (.str "")) b then
          updateOnEvent now (jGetD (.obj kvs) "event_type" (.str "")) r
        else r) :=
  regLookup_map_upd _ _ now reg b

theorem handleAgentMessage_not_obj (now : Int) (reg : Registry) (m : Json)
    (h : ∀ kvs, m ≠ .obj kvs) : handleAgentMessage now reg m = reg := by
  cases m with
  | obj kvs => exact absurd rfl (h kvs)
  | null => rfl
  | bool b => rfl
  | num n => rfl
  | str s => rfl
  | arr xs => rfl

theorem regLookup_sweep (now : Int) (reg : Registry) (b : String) :
    regLookup (checkAgentHealth now reg).1 b =
      (regLookup reg b).map (fun r => (checkRecord now b r).1) := by
  induction reg with
  | nil => rfl
  | cons hd tl ih =>
    obtain ⟨n, r⟩ := hd
    by_cases hn : n = b
    · subst hn; simp [checkAgentHealth, regLookup, ih]
    · simp [checkAgentHealth, regLookup, hn, ih]

theorem sweep_keys (now : Int) (reg : Registry) :
    (checkAgentHealth now reg).1.map Prod.fst = reg.map Prod.fst := by
  induction reg with
  | nil => rfl
  | cons hd tl ih => obtain ⟨n, r⟩ := hd; simp [checkAgentHealth, ih]

theorem checkRecord_events_shape (now : Int) (n : String) (r : AgentRecord) :
    ∀ e ∈ (checkRecord now n r).2, e.agentName = n ∧ e.eventType = "agent.unresponsive" := by
  unfold checkRecord
  split
  · split <;> simp
  · split
    · split <;> simp
    · simp

theorem regLookup_none_iff (reg : Registry) (a : String) :
    regLookup reg a = none ↔ a ∉ reg.map Prod.fst := by
  induction reg with
  | nil => simp [regLookup]
  | cons hd tl ih =>
    obtain ⟨n, r⟩ := hd
    by_cases hn : n = a
    · subst hn; simp [regLookup]
    · have hn2 : a ≠ n := fun h => hn h.symm
      simp [regLookup, hn, hn2, ih]

theorem sweep_events_absent (now : Int) (reg : Registry) (a : String)
    (h : regLookup reg a = none) :
    (checkAgentHealth now reg).2.filter (eventFor a) = [] := by
  induction reg with
  | nil => rfl
  | cons hd tl ih =>
    obtain ⟨n, r⟩ := hd
    rw [regLookup] at h
    by_cases hn : n = a
    · simp [hn] at h
    · simp only [if_neg hn] at h
      have hnil : List.filter (eventFor a) (checkRecord now n r).2 = [] := by
        rw [List.filter_eq_nil_iff]
        intro e he
        have := (checkRecord_events_shape now n r e he).1
        simp [eventFor, this, hn]
      simp [checkAgentHealth, List.filter_append, ih h, hnil]

theorem sweep_events_for (now : Int) (reg : Registry) (a : String) (r : AgentRecord)
    (hnd : (reg.map Prod.fst).Nodup) (hreg : regLookup reg a = some r) :
    (checkAgentHealth now reg).2.filter (eventFor a) =
      (checkRecord now a r).2.filter (eventFor a) := by
  induction reg with
  | nil => simp [regLookup] at hreg
  | cons hd tl ih =>
    obtain ⟨n, r0⟩ := hd
    rw [regLookup] at hreg
    simp only [List.map_cons, List.nodup_cons] at hnd
    by_cases hn : n = a
    · subst hn
      rw [if_pos rfl] at hreg
      have hr0 : r0 = r := by injection hreg
      subst hr0
      have habs : regLookup tl n = none := (regLookup_none_iff tl n).mpr hnd.1
      simp [checkAgentHealth, List.filter_append, sweep_events_absent now tl n habs]
    · rw [if_neg hn] at hreg
      have hnil : List.filter (eventFor a) (checkRecord now n r0).2 = [] := by
        rw [List.filter_eq_nil_iff]
        intro e he
        have := (checkRecord_events_shape now n r0 e he).1
        simp [eventFor, this, hn]
      simp [checkAgentHealth, List.filter_append, ih hnd.2 hreg, hnil]

theorem checkRecord_expected_none (now : Int) (n : String) (r : AgentRecord)
    (hst : r.status = .expected) (hls : r.lastSeen = none) :
    checkRecord now n r = (r, []) := by
  simp [checkRecord, hls, hst]

theorem checkRecord_unresponsive (now : Int) (n : String) (r : AgentRecord) (t : Int)
    (hst : r.status = .unresponsive) (hls : r.lastSeen = some t) :
    checkRecord now n r = (r, []) := by
  simp only [checkRecord, hls]
  split <;> simp [hst]

theorem checkRecord_alarm (now : Int) (n : String) (r : AgentRecord) (t : Int)
    (hls : r.lastSeen = some t) (hsil : 300 < now - t) (hst : r.status ≠ .unresponsive) :
    checkRecord now n r =
      ({ r with status := .unresponsive }, [⟨"agent.unresponsive", n, now - t⟩]) := by
  simp [checkRecord, hls, hsil, hst]

theorem checkRecord_status_not_online (now : Int) (n : String) (r : AgentRecord)
    (h : r.status ≠ .online) : ((checkRecord now n r).1).status ≠ .online := by
  unfold checkRecord
  split
  · split <;> simp_all
  · split
    · split <;> simp_all
    · simp_all

theorem updateOnEvent_errors (now : Int) (et : Json) (r : AgentRecord) :
    (updateOnEvent now et r).errors = r.errors := by
  unfold updateOnEvent
  split <;> try rfl
  split <;> rfl

theorem checkRecord_errors (now : Int) (n : String) (r : AgentRecord) :
    ((checkRecord now n r).1).errors = r.errors := by
  unfold checkRecord
  split
  · split <;> rfl
  · split
    · split <;> rfl
    · rfl

theorem jGetD_not_obj (m : Json) (key : String) (d : Json)
    (h : ∀ kvs, m ≠ .obj kvs) : jGetD m key d = d := by
  cases m with
  | obj kvs => exact absurd rfl (h kvs)
  | null => rfl
  | bool b => rfl
  | num n => rfl
  | str s => rfl
  | arr xs => rfl

/-! ### C6: agent.started handling -/

/-- C6: when the orchestrator consumes a broadcast whose `event_type` is
`agent.started` and whose `agent_source` is a rostered identity `a`, the
record of `a` becomes `online` with `last_seen = now` and
`messages_received` incremented, and every other record is unchanged. -/
theorem agent_started_updates_record
    (now : Int) (reg : Registry) (m : Json) (a : String) (r : AgentRecord)
    (hreg : regLookup reg a = some r)
    (hsrc : jGetD m "agent_source" (.str "") = .str a)
    (het : jGetD m "event_type" (.str "") = .str "agent.started") :
    regLookup (handleAgentMessage now reg m) a =
      some { status := .online, lastSeen := some now,
             messagesReceived := r.messagesReceived + 1, errors := r.errors } ∧
    ∀ b, b ≠ a → regLookup (handleAgentMessage now reg m) b = regLookup reg b := by
  obtain ⟨kvs, rfl⟩ : ∃ kvs, m = .obj kvs := by
    cases m with
    | obj kvs => exact ⟨kvs, rfl⟩
    | null => rw [jGetD_not_obj _ _ _ (by intro kvs h; cases h)] at het; simp at het
    | bool b => rw [jGetD_not_obj _ _ _ (by intro kvs h; cases h)] at het; simp at het
    | num n => rw [jGetD_not_obj _ _ _ (by intro kvs h; cases h)] at het; simp at het
    | str s => rw [jGetD_not_obj _ _ _ (by intro kvs h; cases h)] at het; simp at het
    | arr xs => rw [jGetD_not_obj _ _ _ (by intro kvs h; cases h)] at het; simp at het
  constructor
  · rw [handleAgentMessage_obj, hreg, hsrc, het]
    simp [isStrVal, updateOnEvent]
  · intro b hb
    rw [handleAgentMessage_obj, hsrc]
    have : isStrVal (.str a) b = false := by
      simp [isStrVal]
      exact fun h => hb h.symm
    rw [this]
    cases regLookup reg b <;> rfl

/-- Witness for C6, the spec's scenario: after `agent.started` from
`photo-agent` at time 5, `photo-agent` is `online` and `marketing-agent`
is still the untouched initial (`expected`) record. -/
theorem agent_started_updates_record_witness :
    regLookup (handleAgentMessage 5 (initRegistry expectedAgents)
        (.obj [("event_type", .str "agent.started"), ("agent_source", .str "photo-agent")]))
        "photo-agent" =
      some { status := .online, lastSeen := some 5, messagesReceived := 1, errors := 0 } ∧
    regLookup (handleAgentMessage 5 (initRegistry expectedAgents)
        (.obj [("event_type", .str "agent.started"), ("agent_source", .str "photo-agent")]))
        "marketing-agent" = some initialRecord := by
  have h := agent_started_updates_record 5 (initRegistry expectedAgents)
    (.obj [("event_type", .str "agent.started"), ("agent_source", .str "photo-agent")])
    "photo-agent" initialRecord (by rfl) (by rfl) (by rfl)
  exact ⟨h.1, by rw [h.2 "marketing-agent" (by decide)]; rfl⟩

/-! ### C8: expected records are stable under sweeps -/

/-- C8: a record that is `expected` with no liveness signal ever seen
(`last_seen = None`) is left entirely unchanged by any number of health
sweeps, at arbitrary sweep times. -/
theorem expected_stable_under_sweeps
    (reg : Registry) (a : String) (r : AgentRecord)
    (hreg : regLookup reg a = some r) (hst : r.status = .expected)
    (hls : r.lastSeen = none) :
    ∀ times : List Int, regLookup (sweepTimes times reg) a = some r := by
  intro times
  induction times generalizing reg with
  | nil => simpa [sweepTimes] using hreg
  | cons t ts ih =>
    have h1 : regLookup (checkAgentHealth t reg).1 a = some r := by
      rw [regLookup_sweep, hreg]
      simp [checkRecord_expected_none t a r hst hls]
    simpa [sweepTimes] using ih _ h1

/-- Witness for C8: three sweeps of the freshly initialized roster leave
`marketing-agent` at the initial `expected` record. -/
theorem expected_stable_under_sweeps_witness :
    regLookup (sweepTimes [100, 700, 2000] (initRegistry expectedAgents))
      "marketing-agent" = some initialRecord :=
  expected_stable_under_sweeps (initRegistry expectedAgents) "marketing-agent"
    initialRecord (by rfl) (by rfl) (by rfl) [100, 700, 2000]

/-! ### C10: the errors counter is never touched -/

/-- All records of a registry carry a zero `errors` counter. -/
def errorsZero (reg : Registry) : Prop :=
  ∀ a r, regLookup reg a = some r → r.errors = 0

theorem errorsZero_init (roster : List String) : errorsZero (initRegistry roster) := by
  intro a r h
  induction roster with
  | nil => simp [initRegistry, regLookup] at h
  | cons n t ih =>
    rw [initRegistry, List.map_cons, regLookup] at h
    by_cases hn : n = a
    · rw [if_pos hn] at h
      have : initialRecord = r := by injection h
      rw [← this]; rfl
    · rw [if_neg hn] at h
      exact ih h

theorem errorsZero_apply (reg : Registry) (op : OrchOp)
    (h : errorsZero reg) : errorsZero (applyOp reg op) := by
  intro a r hr
  cases op with
  | sweep now =>
    rw [applyOp, regLookup_sweep] at hr
    cases hx : regLookup reg a with
    | none => rw [hx] at hr; cases hr
    | some r0 =>
      rw [hx] at hr
      have : (checkRecord now a r0).1 = r := by injection hr
      rw [← this, checkRecord_errors]
      exact h a r0 hx
  | consume now m =>
    cases m with
    | obj kvs =>
      rw [applyOp, handleAgentMessage_obj] at hr
      cases hx : regLookup reg a with
      | none => rw [hx] at hr; cases hr
      | some r0 =>
        rw [hx] at hr
        simp only [Option.map_some'] at hr
        have h0 := h a r0 hx
        cases hs : isStrVal (jGetD (.obj kvs) "agent_source" (.str "")) a <;>
          rw [hs] at hr <;> simp only [Bool.false_eq_true, if_false, if_true,
            Option.some.injEq] at hr <;> rw [← hr]
        · exact h0
        · rw [updateOnEvent_errors]; exact h0
    | null => exact h a r hr
    | bool b => exact h a r hr
    | num n => exact h a r hr
    | str s => exact h a r hr
    | arr xs => exact h a r hr

theorem errorsZero_foldl (ops : List OrchOp) (reg : Registry)
    (h : errorsZero reg) : errorsZero (ops.foldl applyOp reg) := by
  induction ops generalizing reg with
  | nil => exact h
  | cons op t ih => exact ih _ (errorsZero_apply reg op h)

/-- C10: after any interleaving of consumed messages and health sweeps
starting from the configured roster, every record's `errors` counter is
still 0 — it is initialized to 0 and no operation ever writes it. -/
theorem errors_counter_invariant (ops : List OrchOp) (a : String) (r : AgentRecord)
    (h : regLookup (runOps ops) a = some r) : r.errors = 0 :=
  errorsZero_foldl ops (initRegistry expectedAgents)
    (errorsZero_init expectedAgents) a r h

/-! ### C7: unresponsive is one-way -/

/-- C7: once a record is `unresponsive`, no health sweep ever turns it
`online`, and no consumed event other than `agent.started` from that
identity turns it `online` (a non-started event from the identity only
refreshes `last_seen`). -/
theorem unresponsive_one_way
    (reg : Registry) (a : String) (r : AgentRecord)
    (hreg : regLookup reg a = some r) (hst : r.status = .unresponsive) :
    (∀ now r1, regLookup (checkAgentHealth now reg).1 a = some r1 →
      r1.status ≠ .online) ∧
    (∀ now m r2, isStrVal (jGetD m "event_type" (.str "")) "agent.started" = false →
      regLookup (handleAgentMessage now reg m) a = some r2 →
        r2.status ≠ .online ∧
        (jGet m "agent_source" = some (.str a) → r2.lastSeen = some now)) := by
  constructor
  · intro now r1 h1
    rw [regLookup_sweep, hreg] at h1
    simp only [Option.map_some', Option.some.injEq] at h1
    rw [← h1]
    exact checkRecord_status_not_online now a r (by rw [hst]; intro hx; cases hx)
  · intro now m r2 hns h2
    cases m with
    | obj kvs =>
      rw [handleAgentMessage_obj, hreg] at h2
      simp only [Option.map_some', Option.some.injEq] at h2
      cases hs : isStrVal (jGetD (.obj kvs) "agent_source" (.str "")) a <;> rw [hs] at h2
      · simp only [Bool.false_eq_true, if_false] at h2
        refine ⟨?_, ?_⟩
        · rw [← h2, hst]; intro hx; cases hx
        · intro hsrc
          have : jGetD (.obj kvs) "agent_source" (.str "") = .str a := by
            rw [jGetD, hsrc]; rfl
          rw [this] at hs
          simp [isStrVal] at hs
      · simp only [if_true] at h2
        rw [← h2]
        unfold updateOnEvent
        rw [hns]
        constructor
        · simp only [Bool.false_eq_true, if_false]
          split
          · intro hx; cases hx
          · simp [hst]
        · intro _
          simp only [Bool.false_eq_true, if_false]
          split <;> rfl
    | null =>
      rw [handleAgentMessage_not_obj _ _ _ (by intro kvs h; cases h), hreg] at h2
      have : r = r2 := by injection h2
      refine ⟨?_, ?_⟩
      · rw [← this, hst]; intro hx; cases hx
      · intro hsrc; simp [jGet] at hsrc
    | bool b =>
      rw [handleAgentMessage_not_obj _ _ _ (by intro kvs h; cases h), hreg] at h2
      have : r = r2 := by injection h2
      refine ⟨?_, ?_⟩
      · rw [← this, hst]; intro hx; cases hx
      · intro hsrc; simp [jGet] at hsrc
    | num n =>
      rw [handleAgentMessage_not_obj _ _ _ (by intro kvs h; cases h), hreg] at h2
      have : r = r2 := by injection h2
      refine ⟨?_, ?_⟩
      · rw [← this, hst]; intro hx; cases hx
      · intro hsrc; simp [jGet] at hsrc
    | str s =>
      rw [handleAgentMessage_not_obj _ _ _ (by intro kvs h; cases h), hreg] at h2
      have : r = r2 := by injection h2
      refine ⟨?_, ?_⟩
      · rw [← this, hst]; intro hx; cases hx
      · intro hsrc; simp [jGet] at hsrc
    | arr xs =>
      rw [handleAgentMessage_not_obj _ _ _ (by intro kvs h; cases h), hreg] at h2
      have : r = r2 := by injection h2
      refine ⟨?_, ?_⟩
      · rw [← this, hst]; intro hx; cases hx
      · intro hsrc; simp [jGet] at hsrc

/-- Witness for C7: an `unresponsive` record stays non-`online` under a
sweep and under a consumed `system.stats` event from the same identity,
which still refreshes `last_seen`. -/
theorem unresponsive_one_way_witness :
    ((regLookup (checkAgentHealth 900 [("photo-agent",
        { status := .unresponsive, lastSeen := some 0, messagesReceived := 3, errors := 0 })]).1
        "photo-agent").map AgentRecord.status ≠ some .online) ∧
    ((regLookup (handleAgentMessage 950 [("photo-agent",
        { status := .unresponsive, lastSeen := some 0, messagesReceived := 3, errors := 0 })]
        (.obj [("event_type", .str "system.stats"), ("agent_source", .str "photo-agent")]))
        "photo-agent").map AgentRecord.lastSeen = some (some 950)) := by
  have h := unresponsive_one_way
    [("photo-agent", { status := .unresponsive, lastSeen := some 0, messagesReceived := 3, errors := 0 })]
    "photo-agent"
    { status := .unresponsive, lastSeen := some 0, messagesReceived := 3, errors := 0 }
    (by rfl) (by rfl)
  constructor
  · intro hx
    cases hy : regLookup (checkAgentHealth 900 [("photo-agent",
        { status := .unresponsive, lastSeen := some 0, messagesReceived := 3, errors := 0 })]).1
        "photo-agent" with
    | none => rw [hy] at hx; cases hx
    | some r1 =>
      rw [hy] at hx
      simp only [Option.map_some', Option.some.injEq] at hx
      exact h.1 900 r1 hy hx
  · cases hy : regLookup (handleAgentMessage 950 [("photo-agent",
        { status := .unresponsive, lastSeen := some 0, messagesReceived := 3, errors := 0 })]
        (.obj [("event_type", .str "system.stats"), ("agent_source", .str "photo-agent")]))
        "photo-agent" with
    | none => exact absurd hy (by decide)
    | some r2 =>
      have h2 := (h.2 950 (.obj [("event_type", .str "system.stats"), ("agent_source", .str "photo-agent")])
        r2 (by rfl) hy).2 (by rfl)
      simp only [Option.map_some']
      rw [h2]

/-! ### C1: the silence-threshold alarm fires exactly once -/

/-- C1: a rostered record last seen 301 time units before the sweep
(threshold 300) and not already `unresponsive` is demoted to
`unresponsive` by one sweep, with exactly one `agent.unresponsive`
broadcast for it; a second sweep at any later time, with no new activity
for the record, emits no further broadcast for it. -/
theorem silence_threshold_sweep_alarm
    (now : Int) (reg : Registry) (a : String) (r : AgentRecord) (t : Int)
    (hnd : (reg.map Prod.fst).Nodup)
    (hreg : regLookup reg a = some r)
    (hls : r.lastSeen = some t) (hsil : now - t = 301)
    (hst : r.status ≠ .unresponsive) :
    regLookup (checkAgentHealth now reg).1 a = some { r with status := .unresponsive } ∧
    (checkAgentHealth now reg).2.filter (eventFor a) =
      [{ eventType := "agent.unresponsive", agentName := a, silence := 301 }] ∧
    ∀ now2, (checkAgentHealth now2 (checkAgentHealth now reg).1).2.filter (eventFor a) = [] := by
  have halarm := checkRecord_alarm now a r t hls (by omega) hst
  refine ⟨?_, ?_, ?_⟩
  · rw [regLookup_sweep, hreg]
    simp only [Option.map_some']
    rw [halarm]
  · rw [sweep_events_for now reg a r hnd hreg, halarm, hsil]
    simp [eventFor]
  · intro now2
    have hnd1 : ((checkAgentHealth now reg).1.map Prod.fst).Nodup := by
      rw [sweep_keys]; exact hnd
    have hreg1 : regLookup (checkAgentHealth now reg).1 a =
        some { r with status := .unresponsive } := by
      rw [regLookup_sweep, hreg]
      simp only [Option.map_some']
      rw [halarm]
    rw [sweep_events_for now2 _ a _ hnd1 hreg1,
      checkRecord_unresponsive now2 a _ t (by rfl) (by simpa using hls)]
    rfl

/-- Witness for C1: `photo-agent` last seen at time 0, swept at time
301: one alarm, then a second sweep at 600 emits none for it. -/
theorem silence_threshold_sweep_alarm_witness :
    regLookup (checkAgentHealth 301 [("photo-agent",
        { status := .online, lastSeen := some 0, messagesReceived := 1, errors := 0 })]).1
      "photo-agent" =
      some { status := .unresponsive, lastSeen := some 0, messagesReceived := 1, errors := 0 } ∧
    (checkAgentHealth 301 [("photo-agent",
        { status := .online, lastSeen := some 0, messagesReceived := 1, errors := 0 })]).2.filter
        (eventFor "photo-agent") =
      [{ eventType := "agent.unresponsive", agentName := "photo-agent", silence := 301 }] ∧
    (checkAgentHealth 600 (checkAgentHealth 301 [("photo-agent",
        { status := .online, lastSeen := some 0, messagesReceived := 1, errors := 0 })]).1).2.filter
        (eventFor "photo-agent") = [] := by
  have h := silence_threshold_sweep_alarm 301
    [("photo-agent", { status := .online, lastSeen := some 0, messagesReceived := 1, errors := 0 })]
    "photo-agent"
    { status := .online, lastSeen := some 0, messagesReceived := 1, errors := 0 }
    0 (by decide) (by rfl) (by rfl) (by decide) (by decide)
  exact ⟨h.1, h.2.1, h.2.2 600⟩

/-- Witness for C10: after a started broadcast, a sweep much later and a
stopped broadcast, `photo-agent`'s errors counter is still 0. -/
theorem errors_counter_invariant_witness :
    regLookup (runOps
      [.consume 5 (.obj [("event_type", .str "agent.started"), ("agent_source", .str "photo-agent")]),
       .sweep 400,
       .consume 410 (.obj [("event_type", .str "agent.stopped"), ("agent_source", .str "photo-agent")])])
      "photo-agent" =
      some { status := .offline, lastSeen := some 410, messagesReceived := 2, errors := 0 } ∧
    ({ status := .offline, lastSeen := some 410, messagesReceived := 2,
       errors := 0 : AgentRecord }).errors = 0 := by
  refine ⟨by decide, ?_⟩
  exact errors_counter_invariant
    [.consume 5 (.obj [("event_type", .str "agent.started"), ("agent_source", .str "photo-agent")]),
     .sweep 400,
     .consume 410 (.obj [("event_type", .str "agent.stopped"), ("agent_source", .str "photo-agent")])]
    "photo-agent" _ (by decide)

/-! ### C9: stopping twice -/

/-- A freshly connected agent: exchange bound, connection open. -/
def freshConn : AgentConn :=
  ⟨true, true, false, 0, []⟩

/-- C9 counterexample: stopping a connected agent with a bound exchange
twice is observably different from stopping it once — the second call
re-publishes `agent.stopped` (`stop` re-enters the publish branch
because the exchange handle is never cleared), so the effect of two
calls is not that of one. -/
theorem stop_twice_counterexample :
    stopAgent (stopAgent freshConn) ≠
      stopAgent freshConn ∧
    (stopAgent (stopAgent freshConn)).published =
      ["agent.stopped", "agent.stopped"] := by
  constructor
  · decide
  · decide

/-- C9 amended: only the connection-release half of `stop` is
idempotent — a second `stop` never closes the connection again, but it
does publish one more `agent.stopped` broadcast whenever the exchange
handle is set. -/
theorem stop_twice_partial_idempotent (s : AgentConn) :
    (stopAgent (stopAgent s)).closeCalls = (stopAgent s).closeCalls ∧
    (stopAgent (stopAgent s)).isClosed = (stopAgent s).isClosed ∧
    (s.exchangeSet = true →
      (stopAgent (stopAgent s)).published =
        (stopAgent s).published ++ ["agent.stopped"]) := by
  obtain ⟨e, c, i, cc, p⟩ := s
  cases e <;> cases c <;> cases i <;>
    simp [stopAgent, publishMessage]

/-- Witness for C9 amended, at a freshly connected agent. -/
theorem stop_twice_partial_idempotent_witness :
    (stopAgent (stopAgent freshConn)).closeCalls =
      (stopAgent freshConn).closeCalls ∧
    (stopAgent (stopAgent freshConn)).published =
      (stopAgent freshConn).published ++ ["agent.stopped"] :=
  ⟨(stop_twice_partial_idempotent _).1, (stop_twice_partial_idempotent _).2.2 rfl⟩

/-! ### C3: client onboarding dispatch -/

/-- C3 counterexample: when the broker fails the second publish, the
dispatcher does not return `status=error` — `_send_task_to_agent`
swallows the failure, the third message is still sent, and the result is
`status=initiated`. -/
theorem client_onboarding_failure_counterexample :
    ((executeClientOnboarding
        { channelSet := true, failAt := [1], attempts := 0, sent := [], sendErrors := [] }
        "2024-01-01T10:00:00"
        (.obj [("client_data", .obj [("name", .str "Ana")])])).2.status = "initiated") ∧
    ¬ ((executeClientOnboarding
        { channelSet := true, failAt := [1], attempts := 0, sent := [], sendErrors := [] }
        "2024-01-01T10:00:00"
        (.obj [("client_data", .obj [("name", .str "Ana")])])).2.status = "error") ∧
    ((executeClientOnboarding
        { channelSet := true, failAt := [1], attempts := 0, sent := [], sendErrors := [] }
        "2024-01-01T10:00:00"
        (.obj [("client_data", .obj [("name", .str "Ana")])])).1.sent.map
          (fun m => m.toAgent) = ["crm-agent", "calendar-agent"]) := by
  refine ⟨rfl, by decide, rfl⟩

/-- C3 amended: `client_onboarding` sends exactly three direct messages,
in order, to `crm-agent`, `photo-agent` and `calendar-agent`, each tagged
`from=orchestrator`; when the second send fails, the first message has
already been sent (no rollback), the failure is only logged inside the
send helper, the third message is still sent, and the dispatcher still
returns `status=initiated` (not an error result naming the failing
step). -/
theorem client_onboarding_dispatch (taskData : Json) (now : String) :
    (executeClientOnboarding
        { channelSet := true, failAt := [], attempts := 0, sent := [], sendErrors := [] }
        now taskData).1.sent =
      [⟨"task_request", "orchestrator", "crm-agent", now,
          .obj [("type", .str "register_client"),
                ("client_data", jGetD taskData "client_data" (.obj []))]⟩,
       ⟨"task_request", "orchestrator", "photo-agent", now,
          .obj [("type", .str "create_client_folder"),
                ("client_name", jGetD (jGetD taskData "client_data" (.obj [])) "name" (.str ""))]⟩,
       ⟨"task_request", "orchestrator", "calendar-agent", now,
          .obj [("type", .str "schedule_consultation"),
                ("client_data", jGetD taskData "client_data" (.obj []))]⟩] ∧
    (executeClientOnboarding
        { channelSet := true, failAt := [], attempts := 0, sent := [], sendErrors := [] }
        now taskData).2 = ⟨"initiated", "Onboarding de cliente iniciado"⟩ ∧
    (executeClientOnboarding
        { channelSet := true, failAt := [1], attempts := 0, sent := [], sendErrors := [] }
        now taskData).1.sent =
      [⟨"task_request", "orchestrator", "crm-agent", now,
          .obj [("type", .str "register_client"),
                ("client_data", jGetD taskData "client_data" (.obj []))]⟩,
       ⟨"task_request", "orchestrator", "calendar-agent", now,
          .obj [("type", .str "schedule_consultation"),
                ("client_data", jGetD taskData "client_data" (.obj []))]⟩] ∧
    (executeClientOnboarding
        { channelSet := true, failAt := [1], attempts := 0, sent := [], sendErrors := [] }
        now taskData).1.sendErrors = ["photo-agent"] ∧
    (executeClientOnboarding
        { channelSet := true, failAt := [1], attempts := 0, sent := [], sendErrors := [] }
        now taskData).2.status = "initiated" :=
  ⟨rfl, rfl, rfl, rfl, rfl⟩

/-! ### C2: task_request direct messages never reach execute_task -/

set_option maxRecDepth 8192 in
/-- C2 evaluation at the failing input: the `task_request` direct
message that client onboarding sends to `photo-agent` is decoded and
routed to `PhotoAgent.process_message`, which dispatches only on
`event_type`; the message has none, falls to the default logging branch
(`.unhandled`), and `execute_task` is never invoked. The consumer still
acknowledges the message. -/
theorem task_request_not_routed_to_execute_task :
    photoProcessMessage (directMsgJson
      ⟨"task_request", "orchestrator", "photo-agent", "2024-01-01T10:00:00",
       .obj [("type", .str "create_client_folder"), ("client_name", .str "Ana")]⟩) =
      .ok (.unhandled (.str "")) ∧
    handleRawMessage photoProcessMessage (encode (directMsgJson
      ⟨"task_request", "orchestrator", "photo-agent", "2024-01-01T10:00:00",
       .obj [("type", .str "create_client_folder"), ("client_name", .str "Ana")]⟩)) =
      (.processed, true) :=
  ⟨rfl, rfl⟩

/-! ### Codec round trip: digits and numbers -/

theorem digitVal_digitChar : ∀ d, d < 10 → digitVal (digitChar d) = d := by decide

theorem isDigitCh_digitChar : ∀ d, d < 10 → isDigitCh (digitChar d) = true := by decide

theorem charsToNat_append_one (l : List Char) (c : Char) :
    charsToNat (l ++ [c]) = charsToNat l * 10 + digitVal c := by
  simp [charsToNat, List.foldl_append]

theorem natCharsAux_spec : ∀ fuel n, n < fuel →
    natCharsAux fuel n ≠ [] ∧
    (∀ c ∈ natCharsAux fuel n, isDigitCh c = true) ∧
    charsToNat (natCharsAux fuel n) = n := by
  intro fuel
  induction fuel with
  | zero => intro n h; omega
  | succ f ih =>
    intro n h
    by_cases h10 : n < 10
    · refine ⟨by simp [natCharsAux, h10], ?_, ?_⟩
      · intro c hc
        simp [natCharsAux, h10] at hc
        rw [hc]
        exact isDigitCh_digitChar n h10
      · simp [natCharsAux, h10, charsToNat, digitVal_digitChar n h10]
    · have hdiv : n / 10 < f := by
        have := Nat.div_lt_self (by omega : 0 < n) (by omega : 1 < 10)
        omega
      obtain ⟨hne, hdig, hval⟩ := ih (n / 10) hdiv
      refine ⟨by simp [natCharsAux, h10], ?_, ?_⟩
      · intro c hc
        simp only [natCharsAux, if_neg h10, List.mem_append, List.mem_singleton] at hc
        rcases hc with hc | hc
        · exact hdig c hc
        · rw [hc]; exact isDigitCh_digitChar _ (Nat.mod_lt n (by omega))
      · rw [natCharsAux, if_neg h10, charsToNat_append_one, hval,
          digitVal_digitChar _ (Nat.mod_lt n (by omega))]
        omega

theorem natChars_spec (n : Nat) :
    natChars n ≠ [] ∧
    (∀ c ∈ natChars n, isDigitCh c = true) ∧
    charsToNat (natChars n) = n :=
  natCharsAux_spec (n + 1) n (by omega)

theorem takeWhile_append_all (p : Char → Bool) (l r : List Char)
    (h : ∀ c ∈ l, p c = true) :
    (l ++ r).takeWhile p = l ++ r.takeWhile p := by
  induction l with
  | nil => simp
  | cons c t ih =>
    have hc : p c = true := h c (by simp)
    simp only [List.cons_append, List.takeWhile_cons, hc, if_true]
    rw [ih (fun x hx => h x (by simp [hx]))]

theorem dropWhile_append_all (p : Char → Bool) (l r : List Char)
    (h : ∀ c ∈ l, p c = true) :
    (l ++ r).dropWhile p = r.dropWhile p := by
  induction l with
  | nil => simp
  | cons c t ih =>
    have hc : p c = true := h c (by simp)
    simp only [List.cons_append, List.dropWhile_cons, hc, if_true]
    exact ih (fun x hx => h x (by simp [hx]))

theorem takeWhile_digit_nil (r : List Char) (h : digitStart r = false) :
    r.takeWhile isDigitCh = [] := by
  cases r with
  | nil => rfl
  | cons c t =>
    rw [digitStart] at h
    simp [List.takeWhile_cons, h]

theorem dropWhile_digit_id (r : List Char) (h : digitStart r = false) :
    r.dropWhile isDigitCh = r := by
  cases r with
  | nil => rfl
  | cons c t =>
    rw [digitStart] at h
    simp [List.dropWhile_cons, h]

theorem parseNum_natChars (m : Nat) (rest : List Char) (h : digitStart rest = false) :
    parseNum (natChars m ++ rest) = some (.num (m : Int), rest) := by
  obtain ⟨hne, hdig, hval⟩ := natChars_spec m
  obtain ⟨c, t, hct⟩ : ∃ c t, natChars m = c :: t := by
    cases hx : natChars m with
    | nil => exact absurd hx hne
    | cons c t => exact ⟨c, t, rfl⟩
  have hcdig : isDigitCh c = true := hdig c (by rw [hct]; simp)
  have hcm : c ≠ '-' := by
    intro hc
    rw [hc] at hcdig
    exact absurd hcdig (by decide)
  have htw : (c :: (t ++ rest)).takeWhile isDigitCh = c :: t := by
    have h0 := takeWhile_append_all isDigitCh (natChars m) rest hdig
    rw [takeWhile_digit_nil rest h, List.append_nil, hct] at h0
    simpa [List.cons_append] using h0
  have hdw : (c :: (t ++ rest)).dropWhile isDigitCh = rest := by
    have h0 := dropWhile_append_all isDigitCh (natChars m) rest hdig
    rw [dropWhile_digit_id rest h, hct] at h0
    simpa [List.cons_append] using h0
  have hgoal : natChars m ++ rest = c :: (t ++ rest) := by rw [hct]; simp
  rw [hgoal]
  unfold parseNum
  split
  · rename_i rest2 heq
    injection heq with h1 h2
    exact absurd h1 hcm
  · rw [htw, hdw]
    have hcharsval : charsToNat (c :: t) = m := by rw [← hct, hval]
    split
    · rename_i hnil
      cases hnil
    · rw [hcharsval]

theorem parseNum_intChars (n : Int) (rest : List Char) (h : digitStart rest = false) :
    parseNum (intChars n ++ rest) = some (.num n, rest) := by
  by_cases hneg : n < 0
  · obtain ⟨hne, hdig, hval⟩ := natChars_spec (-n).toNat
    have htw : (natChars (-n).toNat ++ rest).takeWhile isDigitCh = natChars (-n).toNat := by
      rw [takeWhile_append_all _ _ _ hdig, takeWhile_digit_nil rest h, List.append_nil]
    have hdw : (natChars (-n).toNat ++ rest).dropWhile isDigitCh = rest := by
      rw [dropWhile_append_all _ _ _ hdig, dropWhile_digit_id rest h]
    rw [intChars, if_pos hneg]
    have hgoal : '-' :: natChars (-n).toNat ++ rest =
        '-' :: (natChars (-n).toNat ++ rest) := by simp
    rw [hgoal]
    unfold parseNum
    split
    · rename_i rest2 heq
      injection heq with h1 h2
      rw [← h2, htw, hdw]
      split
      · rename_i hnil
        exact absurd hnil hne
      · have hn : ((-n).toNat : Int) = -n := Int.toNat_of_nonneg (by omega)
        rw [hval, hn]
        simp
    · rename_i hno
      exact absurd rfl (hno (natChars (-n).toNat ++ rest))
  · rw [intChars, if_neg hneg]
    have hn : ((n.toNat : Nat) : Int) = n := Int.toNat_of_nonneg (by omega)
    rw [parseNum_natChars n.toNat rest h, hn]

/-! ### Codec round trip: strings -/

theorem hexVal_hexChar : ∀ d, d < 16 → hexVal (hexChar d) = some d := by decide

theorem parseStrBody_escChars (cs rest : List Char) :
    parseStrBody (escChars cs ++ ('\"' :: rest)) = some (cs, rest) := by
  induction cs with
  | nil => rfl
  | cons c t ih =>
    by_cases hq : c = '\"'
    · subst hq
      have hesc : escChars ('\"' :: t) = '\\' :: '\"' :: escChars t := rfl
      rw [hesc]
      have hred : parseStrBody ('\\' :: '\"' :: (escChars t ++ ('\"' :: rest))) =
          (parseStrBody (escChars t ++ ('\"' :: rest))).map
            (fun p => ('\"' :: p.1, p.2)) := rfl
      simp only [List.cons_append, hred, ih, Option.map_some']
    · by_cases hb : c = '\\'
      · subst hb
        have hesc : escChars ('\\' :: t) = '\\' :: '\\' :: escChars t := rfl
        rw [hesc]
        have hred : parseStrBody ('\\' :: '\\' :: (escChars t ++ ('\"' :: rest))) =
            (parseStrBody (escChars t ++ ('\"' :: rest))).map
              (fun p => ('\\' :: p.1, p.2)) := rfl
        simp only [List.cons_append, hred, ih, Option.map_some']
      · by_cases hc : c.toNat < 32
        · have hesc : escChars (c :: t) =
              '\\' :: 'u' :: '0' :: '0' :: hexChar (c.toNat / 16) ::
                hexChar (c.toNat % 16) :: escChars t := by
            simp [escChars, escChar, hq, hb, hc]
          rw [hesc]
          have hred : parseStrBody ('\\' :: 'u' :: '0' :: '0' :: hexChar (c.toNat / 16) ::
              hexChar (c.toNat % 16) :: (escChars t ++ ('\"' :: rest))) =
              (match hexVal '0', hexVal '0', hexVal (hexChar (c.toNat / 16)),
                  hexVal (hexChar (c.toNat % 16)) with
                | some ha, some hb2, some hc2, some hd =>
                  (parseStrBody (escChars t ++ ('\"' :: rest))).map
                    (fun p => (Char.ofNat (((ha * 16 + hb2) * 16 + hc2) * 16 + hd) :: p.1, p.2))
                | _, _, _, _ => none) := rfl
          have hhi : hexVal (hexChar (c.toNat / 16)) = some (c.toNat / 16) :=
            hexVal_hexChar _ (by omega)
          have hlo : hexVal (hexChar (c.toNat % 16)) = some (c.toNat % 16) :=
            hexVal_hexChar _ (Nat.mod_lt _ (by omega))
          have h0 : hexVal '0' = some 0 := rfl
          simp only [List.cons_append, hred, hhi, hlo, h0, ih, Option.map_some']
          have harith : ((0 * 16 + 0) * 16 + c.toNat / 16) * 16 + c.toNat % 16 = c.toNat := by
            omega
          rw [harith, Char.ofNat_toNat]
        · have hesc : escChars (c :: t) = c :: escChars t := by
            simp [escChars, escChar, hq, hb, hc]
          rw [hesc]
          simp only [List.cons_append]
          rw [parseStrBody]
          simp only [if_neg hq, if_neg hb, ih, Option.map_some']

/-! ### Codec round trip: value shapes and sizes -/

theorem natChars_cons_digit (m : Nat) :
    ∃ c t, natChars m = c :: t ∧ isDigitCh c = true := by
  obtain ⟨hne, hdig, _⟩ := natChars_spec m
  cases hx : natChars m with
  | nil => exact absurd hx hne
  | cons c t => exact ⟨c, t, rfl, hdig c (by rw [hx]; simp)⟩

theorem encodeJson_cons (v : Json) :
    ∃ c t, encodeJson v = c :: t ∧ c ≠ ']' := by
  cases v with
  | null => exact ⟨'n', _, rfl, by decide⟩
  | bool b =>
    cases b
    · exact ⟨'f', _, rfl, by decide⟩
    · exact ⟨'t', _, rfl, by decide⟩
  | num n =>
    by_cases hneg : n < 0
    · refine ⟨'-', natChars (-n).toNat, ?_, by decide⟩
      rw [show encodeJson (.num n) = intChars n from rfl, intChars, if_pos hneg]
    · obtain ⟨c, t, hct, hdig⟩ := natChars_cons_digit n.toNat
      refine ⟨c, t, ?_, ?_⟩
      · rw [show encodeJson (.num n) = intChars n from rfl, intChars, if_neg hneg, hct]
      · intro hx
        rw [hx] at hdig
        exact absurd hdig (by decide)
  | str s => exact ⟨'\"', _, rfl, by decide⟩
  | arr xs => exact ⟨'[', _, rfl, by decide⟩
  | obj kvs => exact ⟨'{', _, rfl, by decide⟩

theorem jsize_pos (v : Json) : 1 ≤ jsize v := by
  cases v <;> simp [jsize]

theorem jsizeItems_pos (xs : List Json) (h : xs ≠ []) : 1 ≤ jsizeItems xs := by
  cases xs with
  | nil => exact absurd rfl h
  | cons x t => simp [jsizeItems]; omega

theorem jsizeMembers_pos (kvs : List (String × Json)) (h : kvs ≠ []) :
    1 ≤ jsizeMembers kvs := by
  cases kvs with
  | nil => exact absurd rfl h
  | cons kv t => obtain ⟨k, v⟩ := kv; simp [jsizeMembers]; omega

theorem jsize_bound : ∀ fuel : Nat,
    (∀ v : Json, jsize v ≤ fuel → jsize v ≤ (encodeJson v).length) ∧
    (∀ xs : List Json, jsizeItems xs ≤ fuel → jsizeItems xs ≤ 1 + (encodeItems xs).length) ∧
    (∀ kvs : List (String × Json), jsizeMembers kvs ≤ fuel →
      jsizeMembers kvs ≤ 1 + (encodeMembers kvs).length) := by
  intro fuel
  induction fuel with
  | zero =>
    refine ⟨?_, ?_, ?_⟩
    · intro v h
      have := jsize_pos v
      omega
    · intro xs h
      omega
    · intro kvs h
      omega
  | succ f ih =>
    obtain ⟨ihv, ihi, ihm⟩ := ih
    refine ⟨?_, ?_, ?_⟩
    · intro v h
      cases v with
      | null => simp [jsize, encodeJson]
      | bool b => cases b <;> simp [jsize, encodeJson]
      | num n =>
        obtain ⟨c, t, hct, _⟩ := encodeJson_cons (.num n)
        rw [hct]
        simp [jsize]
      | str s =>
        simp [jsize, encodeJson, encStr]
      | arr xs =>
        have hx : jsizeItems xs ≤ f := by
          simp only [jsize] at h
          omega
        have := ihi xs hx
        simp only [jsize, encodeJson, List.length_cons, List.length_append,
          List.length_singleton]
        omega
      | obj kvs =>
        have hx : jsizeMembers kvs ≤ f := by
          simp only [jsize] at h
          omega
        have := ihm kvs hx
        simp only [jsize, encodeJson, List.length_cons, List.length_append,
          List.length_singleton]
        omega
    · intro xs h
      cases xs with
      | nil => simp [jsizeItems]
      | cons x t =>
        cases t with
        | nil =>
          have hx : jsize x ≤ f := by
            simp only [jsizeItems] at h
            omega
          have := ihv x hx
          simp only [jsizeItems, encodeItems]
          omega
        | cons y t2 =>
          have h1 : jsize x ≤ f := by
            simp only [jsizeItems] at h
            omega
          have h2 : jsizeItems (y :: t2) ≤ f := by
            have := jsize_pos x
            simp only [jsizeItems] at h ⊢
            omega
          have hb1 := ihv x h1
          have hb2 := ihi (y :: t2) h2
          simp only [jsizeItems, encodeItems, List.length_append, List.length_cons] at hb2 ⊢
          omega
    · intro kvs h
      cases kvs with
      | nil => simp [jsizeMembers]
      | cons kv t =>
        obtain ⟨k, v⟩ := kv
        cases t with
        | nil =>
          have hx : jsize v ≤ f := by
            simp only [jsizeMembers] at h
            omega
          have := ihv v hx
          simp only [jsizeMembers, encodeMembers, List.length_append, List.length_cons]
          omega
        | cons kv2 t2 =>
          have h1 : jsize v ≤ f := by
            simp only [jsizeMembers] at h
            omega
          have h2 : jsizeMembers (kv2 :: t2) ≤ f := by
            have := jsize_pos v
            simp only [jsizeMembers] at h ⊢
            omega
          have hb1 := ihv v h1
          have hb2 := ihm (kv2 :: t2) h2
          simp only [jsizeMembers, encodeMembers, List.length_append, List.length_cons] at hb2 ⊢
          omega

theorem jsize_le_length (v : Json) : jsize v ≤ (encodeJson v).length :=
  (jsize_bound (jsize v)).1 v le_rfl

/-! ### Codec round trip: the main induction -/

theorem parseVal_lbrack (f : Nat) (c : Char) (X : List Char) (hcne : c ≠ ']') :
    parseVal (f + 1) ('[' :: c :: X) =
      (parseItems f (c :: X)).map (fun p => (Json.arr p.1, p.2)) := by
  simp only [parseVal, if_neg (by decide : ¬ ('[' : Char) = 'n'),
    if_neg (by decide : ¬ ('[' : Char) = 't'), if_neg (by decide : ¬ ('[' : Char) = 'f'),
    if_neg (by decide : ¬ ('[' : Char) = '\"'), if_pos (rfl : ('[' : Char) = '['), if_true]
  split
  · rename_i r heq
    injection heq with hc _
    exact absurd hc hcne
  · rfl

theorem parseVal_digit (f : Nat) (c : Char) (X : List Char) (hdig : isDigitCh c = true) :
    parseVal (f + 1) (c :: X) = parseNum (c :: X) := by
  have hn1 : ¬ c = 'n' := fun hx => absurd (hx ▸ hdig) (by decide)
  have ht1 : ¬ c = 't' := fun hx => absurd (hx ▸ hdig) (by decide)
  have hf1 : ¬ c = 'f' := fun hx => absurd (hx ▸ hdig) (by decide)
  have hq1 : ¬ c = '\"' := fun hx => absurd (hx ▸ hdig) (by decide)
  have hlb1 : ¬ c = '[' := fun hx => absurd (hx ▸ hdig) (by decide)
  have hob1 : ¬ c = '{' := fun hx => absurd (hx ▸ hdig) (by decide)
  simp only [parseVal, if_neg hn1, if_neg ht1, if_neg hf1, if_neg hq1, if_neg hlb1,
    if_neg hob1, hdig, Bool.or_true, if_true]

theorem parseItems_step_close (f : Nat) (cs rest : List Char) (v : Json)
    (h : parseVal f cs = some (v, ']' :: rest)) :
    parseItems (f + 1) cs = some ([v], rest) := by
  simp only [parseItems]
  rw [h]
  rfl

theorem parseItems_step_comma (f : Nat) (cs rest : List Char) (v : Json)
    (h : parseVal f cs = some (v, ',' :: rest)) :
    parseItems (f + 1) cs = (parseItems f rest).map (fun p => (v :: p.1, p.2)) := by
  simp only [parseItems]
  rw [h]
  rfl

theorem parseMembers_key (f : Nat) (X kcs r2 : List Char)
    (h : parseStrBody X = some (kcs, ':' :: r2)) :
    parseMembers (f + 1) ('\"' :: X) =
      (match parseVal f r2 with
        | some (v, '}' :: r3) => some ([(String.mk kcs, v)], r3)
        | some (v, ',' :: r3) =>
          (parseMembers f r3).map (fun p => ((String.mk kcs, v) :: p.1, p.2))
        | _ => none) := by
  simp only [parseMembers]
  rw [h]
  rfl

theorem parseMembers_step_close (f : Nat) (X kcs r2 : List Char) (v : Json)
    (r3 : List Char) (h1 : parseStrBody X = some (kcs, ':' :: r2))
    (h2 : parseVal f r2 = some (v, '}' :: r3)) :
    parseMembers (f + 1) ('\"' :: X) = some ([(String.mk kcs, v)], r3) := by
  rw [parseMembers_key f X kcs r2 h1, h2]
  rfl

theorem parseMembers_step_comma (f : Nat) (X kcs r2 : List Char) (v : Json)
    (r3 : List Char) (h1 : parseStrBody X = some (kcs, ':' :: r2))
    (h2 : parseVal f r2 = some (v, ',' :: r3)) :
    parseMembers (f + 1) ('\"' :: X) =
      (parseMembers f r3).map (fun p => ((String.mk kcs, v) :: p.1, p.2)) := by
  rw [parseMembers_key f X kcs r2 h1, h2]
  rfl

theorem parse_encode : ∀ fuel : Nat,
    (∀ (v : Json) (rest : List Char), jsize v ≤ fuel → digitStart rest = false →
      parseVal fuel (encodeJson v ++ rest) = some (v, rest)) ∧
    (∀ (xs : List Json) (rest : List Char), xs ≠ [] → jsizeItems xs ≤ fuel →
      parseItems fuel (encodeItems xs ++ (']' :: rest)) = some (xs, rest)) ∧
    (∀ (kvs : List (String × Json)) (rest : List Char), kvs ≠ [] → jsizeMembers kvs ≤ fuel →
      parseMembers fuel (encodeMembers kvs ++ ('}' :: rest)) = some (kvs, rest)) := by
  intro fuel
  induction fuel with
  | zero =>
    refine ⟨?_, ?_, ?_⟩
    · intro v rest h _
      have := jsize_pos v
      omega
    · intro xs rest hne h
      have := jsizeItems_pos xs hne
      omega
    · intro kvs rest hne h
      have := jsizeMembers_pos kvs hne
      omega
  | succ f ih =>
    obtain ⟨ihv, ihi, ihm⟩ := ih
    refine ⟨?_, ?_, ?_⟩
    · intro v rest hsz hds
      cases v with
      | null => rfl
      | bool b => cases b <;> rfl
      | num n =>
        have hpn := parseNum_intChars n rest hds
        by_cases hneg : n < 0
        · rw [show encodeJson (.num n) = intChars n from rfl]
          rw [intChars, if_pos hneg] at hpn ⊢
          simp only [List.cons_append] at hpn ⊢
          have hred : parseVal (f + 1) ('-' :: (natChars (-n).toNat ++ rest)) =
              parseNum ('-' :: (natChars (-n).toNat ++ rest)) := rfl
          rw [hred]
          exact hpn
        · obtain ⟨c, t, hct, hdig⟩ := natChars_cons_digit n.toNat
          have henc : encodeJson (.num n) = c :: t := by
            rw [show encodeJson (.num n) = intChars n from rfl, intChars, if_neg hneg, hct]
          rw [henc]
          simp only [List.cons_append]
          rw [parseVal_digit f c (t ++ rest) hdig]
          have hback : intChars n ++ rest = c :: (t ++ rest) := by
            rw [intChars, if_neg hneg, hct]
            simp
          rw [← hback]
          exact hpn
      | str s =>
        show parseVal (f + 1) (('\"' :: (escChars s.data ++ ['\"'])) ++ rest) = _
        have hform : ('\"' :: (escChars s.data ++ ['\"'])) ++ rest =
            '\"' :: (escChars s.data ++ ('\"' :: rest)) := by
          simp
        rw [hform]
        have hred : parseVal (f + 1) ('\"' :: (escChars s.data ++ ('\"' :: rest))) =
            (parseStrBody (escChars s.data ++ ('\"' :: rest))).map
              (fun p => (Json.str (String.mk p.1), p.2)) := rfl
        rw [hred, parseStrBody_escChars]
        rfl
      | arr xs =>
        cases xs with
        | nil =>
          show parseVal (f + 1) (('[' :: (encodeItems [] ++ [']'])) ++ rest) = _
          rfl
        | cons x t =>
          have hsz2 : jsizeItems (x :: t) ≤ f := by
            simp only [jsize] at hsz
            omega
          have hitems := ihi (x :: t) rest (by simp) hsz2
          obtain ⟨c, ct, hct, hcne⟩ := encodeJson_cons x
          obtain ⟨Y, hY⟩ : ∃ Y, encodeItems (x :: t) = c :: Y := by
            cases t with
            | nil => exact ⟨ct, by rw [show encodeItems [x] = encodeJson x from rfl, hct]⟩
            | cons y t2 =>
              refine ⟨ct ++ ',' :: encodeItems (y :: t2), ?_⟩
              rw [show encodeItems (x :: y :: t2) =
                    encodeJson x ++ ',' :: encodeItems (y :: t2) from rfl, hct]
              simp
          show parseVal (f + 1) (('[' :: (encodeItems (x :: t) ++ [']'])) ++ rest) = _
          have hform : ('[' :: (encodeItems (x :: t) ++ [']'])) ++ rest =
              '[' :: c :: (Y ++ (']' :: rest)) := by
            rw [hY]
            simp
          rw [hform, parseVal_lbrack f c (Y ++ (']' :: rest)) hcne]
          have hback : c :: (Y ++ (']' :: rest)) = encodeItems (x :: t) ++ (']' :: rest) := by
            rw [hY]
            simp
          rw [hback, hitems]
          rfl
      | obj kvs =>
        cases kvs with
        | nil =>
          show parseVal (f + 1) (('{' :: (encodeMembers [] ++ ['}'])) ++ rest) = _
          rfl
        | cons kv t =>
          obtain ⟨k, v⟩ := kv
          have hsz2 : jsizeMembers ((k, v) :: t) ≤ f := by
            simp only [jsize] at hsz
            omega
          have hmem := ihm ((k, v) :: t) rest (by simp) hsz2
          obtain ⟨Y, hY⟩ : ∃ Y, encodeMembers ((k, v) :: t) = '\"' :: Y := by
            cases t with
            | nil =>
              refine ⟨(escChars k.data ++ ['\"']) ++ ':' :: encodeJson v, ?_⟩
              rw [show encodeMembers [(k, v)] = encStr k ++ ':' :: encodeJson v from rfl]
              rw [encStr]
              simp
            | cons kv2 t2 =>
              refine ⟨(escChars k.data ++ ['\"']) ++ ':' :: encodeJson v ++
                ',' :: encodeMembers (kv2 :: t2), ?_⟩
              rw [show encodeMembers ((k, v) :: kv2 :: t2) =
                    encStr k ++ ':' :: encodeJson v ++ ',' :: encodeMembers (kv2 :: t2) from rfl]
              rw [encStr]
              simp
          show parseVal (f + 1) (('{' :: (encodeMembers ((k, v) :: t) ++ ['}'])) ++ rest) = _
          have hform : ('{' :: (encodeMembers ((k, v) :: t) ++ ['}'])) ++ rest =
              '{' :: '\"' :: (Y ++ ('}' :: rest)) := by
            rw [hY]
            simp
          rw [hform]
          have hred : parseVal (f + 1) ('{' :: '\"' :: (Y ++ ('}' :: rest))) =
              (parseMembers f ('\"' :: (Y ++ ('}' :: rest)))).map
                (fun p => (Json.obj p.1, p.2)) := rfl
          rw [hred]
          have hback : ('\"' : Char) :: (Y ++ ('}' :: rest)) =
              encodeMembers ((k, v) :: t) ++ ('}' :: rest) := by
            rw [hY]
            simp
          rw [hback, hmem]
          rfl
    · intro xs rest hne hsz
      cases xs with
      | nil => exact absurd rfl hne
      | cons x t =>
        cases t with
        | nil =>
          have hx : jsize x ≤ f := by
            simp only [jsizeItems] at hsz
            omega
          have hv := ihv x (']' :: rest) hx rfl
          show parseItems (f + 1) (encodeItems [x] ++ (']' :: rest)) = some ([x], rest)
          rw [show encodeItems [x] = encodeJson x from rfl]
          exact parseItems_step_close f _ rest x hv
        | cons y t2 =>
          have h1 : jsize x ≤ f := by
            simp only [jsizeItems] at hsz
            omega
          have h2 : jsizeItems (y :: t2) ≤ f := by
            have := jsize_pos x
            simp only [jsizeItems] at hsz ⊢
            omega
          have hrest : digitStart (',' :: (encodeItems (y :: t2) ++ (']' :: rest))) = false := rfl
          have hv := ihv x (',' :: (encodeItems (y :: t2) ++ (']' :: rest))) h1 hrest
          have hrec := ihi (y :: t2) rest (by simp) h2
          show parseItems (f + 1) (encodeItems (x :: y :: t2) ++ (']' :: rest)) =
            some (x :: y :: t2, rest)
          have hform : encodeItems (x :: y :: t2) ++ (']' :: rest) =
              encodeJson x ++ (',' :: (encodeItems (y :: t2) ++ (']' :: rest))) := by
            rw [show encodeItems (x :: y :: t2) =
                  encodeJson x ++ ',' :: encodeItems (y :: t2) from rfl]
            simp
          rw [hform, parseItems_step_comma f _ _ x hv, hrec]
          rfl
    · intro kvs rest hne hsz
      cases kvs with
      | nil => exact absurd rfl hne
      | cons kv t =>
        obtain ⟨k, v⟩ := kv
        cases t with
        | nil =>
          have hx : jsize v ≤ f := by
            simp only [jsizeMembers] at hsz
            omega
          have hv := ihv v ('}' :: rest) hx rfl
          show parseMembers (f + 1) (encodeMembers [(k, v)] ++ ('}' :: rest)) =
            some ([(k, v)], rest)
          have hform : encodeMembers [(k, v)] ++ ('}' :: rest) =
              '\"' :: (escChars k.data ++ ('\"' :: (':' :: (encodeJson v ++ ('}' :: rest))))) := by
            rw [show encodeMembers [(k, v)] = encStr k ++ ':' :: encodeJson v from rfl, encStr]
            simp
          rw [hform, parseMembers_step_close f _ k.data (encodeJson v ++ ('}' :: rest)) v rest
            (parseStrBody_escChars k.data _) hv]
        | cons kv2 t2 =>
          have h1 : jsize v ≤ f := by
            simp only [jsizeMembers] at hsz
            omega
          have h2 : jsizeMembers (kv2 :: t2) ≤ f := by
            have := jsize_pos v
            simp only [jsizeMembers] at hsz ⊢
            omega
          have hrest : digitStart (',' :: (encodeMembers (kv2 :: t2) ++ ('}' :: rest))) =
            false := rfl
          have hv := ihv v (',' :: (encodeMembers (kv2 :: t2) ++ ('}' :: rest))) h1 hrest
          have hrec := ihm (kv2 :: t2) rest (by simp) h2
          show parseMembers (f + 1) (encodeMembers ((k, v) :: kv2 :: t2) ++ ('}' :: rest)) =
            some ((k, v) :: kv2 :: t2, rest)
          have hform : encodeMembers ((k, v) :: kv2 :: t2) ++ ('}' :: rest) =
              '\"' :: (escChars k.data ++ ('\"' :: (':' :: (encodeJson v ++
                (',' :: (encodeMembers (kv2 :: t2) ++ ('}' :: rest))))))) := by
            rw [show encodeMembers ((k, v) :: kv2 :: t2) =
                  encStr k ++ ':' :: encodeJson v ++ ',' :: encodeMembers (kv2 :: t2) from rfl,
              encStr]
            simp
          rw [hform, parseMembers_step_comma f _ k.data _ v _
            (parseStrBody_escChars k.data _) hv, hrec]
          rfl

/-! ### C4: the envelope round-trip law -/

theorem decode_encode (v : Json) : decode (encodeJson v) = .ok v := by
  have hfuel : jsize v ≤ (encodeJson v).length + 1 := by
    have := jsize_le_length v
    omega
  have h := (parse_encode ((encodeJson v).length + 1)).1 v [] hfuel rfl
  rw [List.append_nil] at h
  unfold decode
  rw [h]

/-- C4: for every valid broadcast envelope (object keys duplicate-free,
arbitrarily nested structured payload), decoding the bytes produced by
encoding it yields the envelope back. -/
theorem envelope_roundtrip (e : BroadcastEnvelope) (hv : validKeys e.data = true) :
    decodeEnvelope (encode (broadcastJson e)) = .ok e := by
  obtain ⟨et, src, ts, d⟩ := e
  have h : decode (encode (broadcastJson ⟨et, src, ts, d⟩)) =
      .ok (broadcastJson ⟨et, src, ts, d⟩) := decode_encode _
  unfold decodeEnvelope
  rw [h]
  rfl

/-- Witness for C4 at an envelope with a nested structured payload:
strings needing escapes, negative numbers, arrays and nested objects. -/
theorem envelope_roundtrip_witness :
    validKeys (Json.obj [("agent_name", .str "photo-agent"),
      ("stats", .obj [("count", .num (-3)),
        ("tags", .arr [.str "a\"b\\c", .num 42, .null, .bool true,
          .obj [("k", .arr [])]])])]) = true ∧
    decodeEnvelope (encode (broadcastJson
      ⟨"agent.started", "photo-agent", "2024-01-01T10:00:00",
        .obj [("agent_name", .str "photo-agent"),
          ("stats", .obj [("count", .num (-3)),
            ("tags", .arr [.str "a\"b\\c", .num 42, .null, .bool true,
              .obj [("k", .arr [])]])])]⟩)) =
      .ok ⟨"agent.started", "photo-agent", "2024-01-01T10:00:00",
        .obj [("agent_name", .str "photo-agent"),
          ("stats", .obj [("count", .num (-3)),
            ("tags", .arr [.str "a\"b\\c", .num 42, .null, .bool true,
              .obj [("k", .arr [])]])])]⟩ :=
  ⟨rfl, envelope_roundtrip _ rfl⟩

/-! ### C5: malformed payloads are dropped, acknowledged, and do not
stop the consumer -/

/-- C5: a byte payload that fails to decode is handled as a recoverable
error: the handler returns normally (no exception escapes the modelled
try/except), the message is dropped and still acknowledged, and every
message before and after it in the delivery sequence is still consumed
and handled. -/
theorem malformed_payload_dropped {α : Type} (proc : Json → Except String α)
    (raw : List Char) (err : DecodeError) (h : decode raw = .error err) :
    handleRawMessage proc raw = (.decodeFailure, true) ∧
    ∀ pre post : List (List Char),
      consumeAll proc (pre ++ raw :: post) =
        consumeAll proc pre ++ (HandlerOutcome.decodeFailure, true) :: consumeAll proc post := by
  have h1 : handleRawMessage proc raw = (.decodeFailure, true) := by
    unfold handleRawMessage
    rw [h]
  refine ⟨h1, ?_⟩
  intro pre post
  simp [consumeAll, h1]

/-- Witness for C5: the junk payload `xyz` is dropped and acknowledged
while the surrounding well-formed messages are still consumed. -/
theorem malformed_payload_dropped_witness :
    decode ['x', 'y', 'z'] = .error .malformed ∧
    handleRawMessage photoProcessMessage ['x', 'y', 'z'] = (.decodeFailure, true) ∧
    consumeAll photoProcessMessage
        ([['n', 'u', 'l', 'l']] ++ ['x', 'y', 'z'] :: [['n', 'u', 'l', 'l']]) =
      consumeAll photoProcessMessage [['n', 'u', 'l', 'l']] ++
        (HandlerOutcome.decodeFailure, true) ::
          consumeAll photoProcessMessage [['n', 'u', 'l', 'l']] := by
  have h := malformed_payload_dropped photoProcessMessage ['x', 'y', 'z'] .malformed rfl
  exact ⟨rfl, h.1, h.2 [['n', 'u', 'l', 'l']] [['n', 'u', 'l', 'l']]⟩

end Jarvis
